import Mathlib

/-!
Verification development for the local-http-proxy routing-and-forwarding
engine.  Strings are modelled as `List Char`; Rust `Result`/fallible
operations are modelled as `Option` (error messages are dropped, no claim
inspects them).  Regexes compiled once in the source are modelled as
recognizer functions over `List Char` accepting exactly the same language.
-/

/-- Model of Rust `char::is_ascii_lowercase`-style class `[a-z]`. -/
def isLowerAZ (c : Char) : Bool := decide (97 ≤ c.toNat ∧ c.toNat ≤ 122)

/-- Class `[A-Z]`. -/
def isUpperAZ (c : Char) : Bool := decide (65 ≤ c.toNat ∧ c.toNat ≤ 90)

/-- Class `[0-9]`. -/
def isDigit09 (c : Char) : Bool := decide (48 ≤ c.toNat ∧ c.toNat ≤ 57)

/-- Class `[a-z0-9]`. -/
def isAlnumLower (c : Char) : Bool := isLowerAZ c || isDigit09 c

/-- Class `[A-Za-z0-9]`. -/
def isAlnumMixed (c : Char) : Bool := isLowerAZ c || isUpperAZ c || isDigit09 c

/-- Class `[a-z0-9-]`, the characters allowed in a routing label. -/
def isLabelChar (c : Char) : Bool := isAlnumLower c || decide (c = '-')

/-- Class `[A-Za-z0-9-]`, the characters of the PATH_RE key group. -/
def isPathKeyChar (c : Char) : Bool := isAlnumMixed c || decide (c = '-')

/-- Model of Rust `u8/char::to_ascii_lowercase`: shift `A`-`Z` down by 32. -/
def lowerChar (c : Char) : Char :=
  if 65 ≤ c.toNat ∧ c.toNat ≤ 90 then Char.ofNat (c.toNat + 32) else c

/-- Code points that Rust `char::is_whitespace` accepts (`str::trim` uses it). -/
def rustWsCodes : List Nat :=
  [9, 10, 11, 12, 13, 32, 133, 160, 5760, 8192, 8193, 8194, 8195, 8196,
   8197, 8198, 8199, 8200, 8201, 8202, 8232, 8233, 8239, 8287, 12288]

/-- Model of Rust `char::is_whitespace`. -/
def rustIsWsp (c : Char) : Bool := decide (c.toNat ∈ rustWsCodes)

/-- Model of Rust `str::trim_start`. -/
def trimL (s : List Char) : List Char := s.dropWhile rustIsWsp

/-- Model of Rust `str::trim_end`. -/
def trimR (s : List Char) : List Char := (s.reverse.dropWhile rustIsWsp).reverse

/-- Model of Rust `str::trim`. -/
def trimS (s : List Char) : List Char := trimR (trimL s)

/-- Model of Rust `str::contains(char)`. -/
def hasChar (s : List Char) (c : Char) : Bool := s.any (fun d => decide (d = c))

/-- Tail part `(?:[X-]*[X])?` of the label grammar, parametrized by the
alphanumeric class `good`: empty, or interior characters `good`-or-hyphen
ending in a `good` character. -/
def labelTailCore (good : Char → Bool) : List Char → Bool
  | [] => true
  | [c] => good c
  | c :: rest => (good c || decide (c = '-')) && labelTailCore good rest

/-- Recognizer for the regex `^[X](?:[X-]*[X])?$` where `X` is `good`. -/
def labelCore (good : Char → Bool) (s : List Char) : Bool :=
  match s with
  | [] => false
  | c :: rest => good c && labelTailCore good rest

/-- Recognizer for `LABEL_RE = ^[a-z0-9](?:[a-z0-9-]*[a-z0-9])?$`
(identical in `src/server/proxy.rs` and `src/commands/util.rs`). -/
def labelRe (s : List Char) : Bool := labelCore isAlnumLower s

/-- Recognizer for the key group of `PATH_RE`:
`[A-Za-z0-9](?:[A-Za-z0-9-]*[A-Za-z0-9])?`. -/
def pathKeyRe (s : List Char) : Bool := labelCore isAlnumMixed s

/-- Model of the first non-empty separator-delimited segment:
`s.split(sep).find(|seg| !seg.is_empty())`.  Leading separators are
skipped (empty segments), then the segment runs to the next separator. -/
def firstNonemptySeg (sep : Char) (s : List Char) : Option (List Char) :=
  let t := s.dropWhile (fun c => decide (c = sep))
  if t = [] then none else some (t.takeWhile (fun c => decide (c ≠ sep)))

/-- Model of `parse_source_raw_key` in `src/commands/util.rs`.  If the input
starts with `/`, the first non-empty path segment; else if it contains `.`,
the part before any `:port` is split on `.` and the first non-empty label is
taken; otherwise the whole string. -/
def parse_source_raw_key (s : List Char) : Option (List Char) :=
  if s.head? = some '/' then
    firstNonemptySeg '/' s
  else if hasChar s '.' then
    firstNonemptySeg '.' (s.takeWhile (fun c => decide (c ≠ ':')))
  else
    some s

/-- Model of `validate_source_label` in `src/commands/util.rs`: length at
most 63 and `LABEL_RE` match.  (Rust checks byte length; for any string the
two checks agree extensionally, because a label with a multi-byte character
fails `LABEL_RE` regardless of length.) -/
def validate_source_label (key : List Char) : Bool :=
  decide (key.length ≤ 63) && labelRe key

/-- Model of `normalize_source_key` in `src/commands/util.rs`: trim, reject
empty, extract the raw key, lowercase it, validate it as a label. -/
def normalize_source_key (input : List Char) : Option (List Char) :=
  let s := trimS input
  if s = [] then none
  else
    match parse_source_raw_key s with
    | none => none
    | some raw =>
      let key := raw.map lowerChar
      if validate_source_label key then some key else none

/-- Scheme characters accepted by the `http` crate (`ALPHA / DIGIT / + / - / .`). -/
def isSchemeChar (c : Char) : Bool := isAlnumMixed c || decide (c = '+' ∨ c = '-' ∨ c = '.')

/-- True when `c` is not one of the delimiters `/`, `?`, `#` that end the
authority component of an absolute-form URI. -/
def isAuthFree (c : Char) : Bool := decide (¬ (c = '/' ∨ c = '?' ∨ c = '#'))

/-- Authority characters accepted by the URI parser of the `http` crate: alphanumerics plus
the marks with code points 45 46 95 126 37 33 36 38 39 40 41 42 43 44 59
61 58 64 91 93 (hyphen, dot, underscore, tilde, percent and the other
sub-delimiters, including code point 39). -/
def isAuthChar (c : Char) : Bool :=
  isAlnumMixed c ||
    decide (c.toNat ∈ [45, 46, 95, 126, 37, 33, 36, 38, 39, 40, 41, 42, 43,
      44, 59, 61, 58, 64, 91, 93])

/-- Path-and-query characters: visible ASCII (the `http` crate rejects
spaces and control bytes in the path and query). -/
def isPqChar (c : Char) : Bool := decide (33 ≤ c.toNat ∧ c.toNat ≤ 126)

/-- The separator `://`. -/
def schemeSepStr : List Char := ("://").toList

/-- The prefix `http://`. -/
def httpPreStr : List Char := ("http://").toList

/-- The prefix `https://`. -/
def httpsPreStr : List Char := ("https://").toList

/-- The scheme name `http`. -/
def httpStr : List Char := ("http").toList

/-- The prefix `http://localhost:` used for bare-port targets. -/
def localhostPreStr : List Char := ("http://localhost:").toList

/-- Model of `str::starts_with(str)`. -/
def hasPrefixL : List Char → List Char → Bool
  | [], _ => true
  | _ :: _, [] => false
  | p :: ps, c :: cs => decide (p = c) && hasPrefixL ps cs

/-- Model of `str::contains(str)`. -/
def hasInfixL (p : List Char) : List Char → Bool
  | [] => hasPrefixL p []
  | c :: cs => hasPrefixL p (c :: cs) || hasInfixL p cs

/-- Model of `http::Uri`: optional scheme, optional authority, and the
path-and-query component as stored (empty when absent). -/
structure Uri where
  scheme : Option (List Char)
  authority : Option (List Char)
  pq : List Char
deriving DecidableEq

/-- Model of `http::Uri` parsing for the absolute form
`scheme://authority[path[?query]][#fragment]`: the scheme runs to the first
`:` and must be followed by `//`; the authority runs to the first `/`, `?`
or `#` and must be non-empty; the path-and-query is the remainder truncated
at the first `#` (the `http` crate stores no fragment). -/
def parseAbsUri (s : List Char) : Option Uri :=
  let sch := s.takeWhile (fun c => decide (c ≠ ':'))
  let rest0 := s.drop sch.length
  if decide (sch ≠ []) && sch.all isSchemeChar && hasPrefixL schemeSepStr rest0 then
    let rest := rest0.drop 3
    let auth := rest.takeWhile isAuthFree
    let tail := rest.dropWhile isAuthFree
    let pq := tail.takeWhile (fun c => decide (c ≠ '#'))
    if decide (auth ≠ []) && auth.all isAuthChar && pq.all isPqChar then
      some { scheme := some sch, authority := some auth, pq := pq }
    else none
  else none

/-- Model of `http::Uri::from_str` over the three forms the crate accepts:
absolute form when `://` occurs, origin form (path and query only) when the
string starts with `/`, and authority form otherwise. -/
def parseUri (s : List Char) : Option Uri :=
  if hasInfixL schemeSepStr s then parseAbsUri s
  else if s.head? = some '/' then
    if (s.takeWhile (fun c => decide (c ≠ '#'))).all isPqChar then
      some { scheme := none, authority := none,
             pq := s.takeWhile (fun c => decide (c ≠ '#')) }
    else none
  else if decide (s ≠ []) && s.all isAuthChar then
    some { scheme := none, authority := some s, pq := [] }
  else none

/-- Model of the `Display` form of `http::Uri`: `scheme://` when present, then the
authority when present, then the stored path-and-query. -/
def uriToString (u : Uri) : List Char :=
  (match u.scheme with
   | some sch => sch ++ schemeSepStr
   | none => []) ++ u.authority.getD [] ++ u.pq

/-- Model of `str::trim_end_matches('/')`. -/
def trimEndSlashes (s : List Char) : List Char :=
  (s.reverse.dropWhile (fun c => decide (c = '/'))).reverse

/-- Model of `is_all_digits` in `normalize_target`. -/
def isAllDigits (s : List Char) : Bool := decide (s ≠ []) && s.all isDigit09

/-- Model of `normalize_target` in `src/commands/util.rs`: trim, reject
empty; bare digits or `:digits` become `http://localhost:<port>`;
an `http://` input is used as is; `https://` or any other `scheme://` is
rejected; anything else is prefixed with `http://`.  The result must parse
as a URI with scheme `http` and an authority, and trailing slashes are
stripped from its display form. -/
def normalize_target (input : List Char) : Option (List Char) :=
  let s := trimS input
  if s = [] then none
  else
    let ws? : Option (List Char) :=
      if isAllDigits s then some (localhostPreStr ++ s)
      else if s.head? = some ':' then
        if isAllDigits (s.drop 1) then some (localhostPreStr ++ s.drop 1) else none
      else if hasPrefixL httpPreStr s then some s
      else if hasPrefixL httpsPreStr s then none
      else if hasInfixL schemeSepStr s then none
      else some (httpPreStr ++ s)
    match ws? with
    | none => none
    | some ws =>
      match parseUri ws with
      | none => none
      | some u =>
        if u.scheme = some httpStr then
          match u.authority with
          | none => none
          | some _ => some (trimEndSlashes (uriToString u))
        else none

/-- The header name `host` (hyper stores header names lowercased). -/
def hostHdrName : List Char := ("host").toList

/-- The default forward path `/`. -/
def slashStr : List Char := ("/").toList

/-- Model of `ProxyMode` in the configuration. -/
inductive ProxyMode where
  | Domain
  | Path
deriving DecidableEq

/-- Model of `http::request::Parts`: method, version tag, and the header
map as the `(name, value)` pairs its iterator yields, names lowercased. -/
structure ReqParts where
  method : List Char
  version : Nat
  headers : List (List Char × List Char)
deriving DecidableEq

/-- Model of an inbound `Request`: its parts, `uri().path_and_query()` as an
optional string, and an opaque body token (bodies are streamed through). -/
structure Request where
  parts : ReqParts
  pathAndQuery : Option (List Char)
  body : Nat
deriving DecidableEq

/-- Model of `HostAndPath` in `src/server/proxy.rs`. -/
structure HostAndPath where
  host : List Char
  path : List Char
deriving DecidableEq

/-- Model of `HeaderMap::get`: the first value stored under the name. -/
def getHeader (hs : List (List Char × List Char)) (k : List Char) : Option (List Char) :=
  (hs.find? (fun p => decide (p.1 = k))).map (fun p => p.2)

/-- Model of `HashMap<String, String>` lookup over an association list. -/
def lookupTable (m : List (List Char × List Char)) (k : List Char) : Option (List Char) :=
  match m with
  | [] => none
  | (a, b) :: t => if a = k then some b else lookupTable t k

/-- Bytes after `?` in the `(?:\?.*)?` group of `PATH_RE` must contain no
newline,
because `.` does not match `\n` in the `regex` crate. -/
def noNewline (q : List Char) : Bool := q.all (fun c => decide (c ≠ '\n'))

/-- The remainder group of `PATH_RE`: `(?:(?:/[^?]*)?(?:\?.*)?)?` anchored to
the end.  It matches the empty string, a string starting with `?` whose tail
has no newline, or a string starting with `/` whose part after the first `?`
(if any) has no newline. -/
def pathRestOk (rest : List Char) : Bool :=
  match rest with
  | [] => true
  | c :: m =>
    if c = '?' then noNewline m
    else if c = '/' then
      match m.dropWhile (fun d => decide (d ≠ '?')) with
      | [] => true
      | _ :: q => noNewline q
    else false

/-- Model of `PATH_RE.captures` on the path-and-query of the request,
yielding the
`key` and `rest` groups.  The key group can only take `[A-Za-z0-9-]`
characters and the remainder must start with `/` or `?` (or be empty), so
the match is exactly: the maximal leading run of key characters after the
initial `/`, which must satisfy the key grammar, with the remainder
satisfying `pathRestOk`. -/
def pathReCaptures (pq : List Char) : Option (List Char × List Char) :=
  match pq with
  | [] => none
  | c :: t =>
    if c = '/' then
      if pathKeyRe (t.takeWhile isPathKeyChar) && pathRestOk (t.dropWhile isPathKeyChar) then
        some (t.takeWhile isPathKeyChar, t.dropWhile isPathKeyChar)
      else none
    else none

/-- The optional `(?::\d+)?` suffix of `HOST_RE`, applied to everything from
the first colon on: nothing, or a colon followed by at least one digit. -/
def hostPortOk (b : List Char) : Bool :=
  match b with
  | [] => true
  | _ :: d => decide (d ≠ []) && d.all isDigit09

/-- Model of `HOST_RE.captures`:
`^(?P<key>[a-z0-9](?:[a-z0-9-]*[a-z0-9])?)\.[^:]+(?::\d+)?$`.  The key is
the maximal leading run of label characters, which must satisfy `LABEL_RE`
and be followed by `.`; after the dot comes a non-empty colon-free part and
an optional `:port` with at least one digit. -/
def hostReCaptures (h : List Char) : Option (List Char) :=
  match h.dropWhile isLabelChar with
  | [] => none
  | c :: r2 =>
    if c = '.' then
      if labelRe (h.takeWhile isLabelChar) &&
          decide (r2.takeWhile (fun d => decide (d ≠ ':')) ≠ []) &&
          hostPortOk (r2.dropWhile (fun d => decide (d ≠ ':'))) then
        some (h.takeWhile isLabelChar)
      else none
    else none

/-- Model of `char::is_ascii_alphanumeric`. -/
def isAsciiAlnum (c : Char) : Bool :=
  decide ((48 ≤ c.toNat ∧ c.toNat ≤ 57) ∨ (65 ≤ c.toNat ∧ c.toNat ≤ 90) ∨
    (97 ≤ c.toNat ∧ c.toNat ≤ 122))

/-- Model of `extract_key_from_host` in `src/server/proxy.rs`: read the
`Host` header, trim and lowercase it, require an ASCII-alphanumeric first
character, then capture the `HOST_RE` key. -/
def extract_key_from_host (req : Request) : Option (List Char) :=
  match getHeader req.parts.headers hostHdrName with
  | none => none
  | some raw =>
    let host := (trimS raw).map lowerChar
    match host.head? with
    | none => none
    | some c => if isAsciiAlnum c then hostReCaptures host else none

/-- The Domain arm of the Key Extractor: the key comes from the Host header
and the forward path is the full path-and-query, defaulting to `/`. -/
def extractKeyDomain (req : Request) : Option (List Char × List Char) :=
  match extract_key_from_host req with
  | none => none
  | some key => some (key, req.pathAndQuery.getD slashStr)

/-- The Path arm of the Key Extractor: the lowercased `PATH_RE` key,
re-validated against `LABEL_RE`, with the `rest` group as forward path
(default `/` when empty). -/
def extractKeyPath (req : Request) : Option (List Char × List Char) :=
  match req.pathAndQuery with
  | none => none
  | some pq =>
    match pathReCaptures pq with
    | none => none
    | some (key0, rest) =>
      if labelRe (key0.map lowerChar) then
        some (key0.map lowerChar, if rest = [] then slashStr else rest)
      else none

/-- The Key Extractor: the `(route_key, path)` computation inside
`get_destination` in `src/server/proxy.rs`, dispatched on the routing
mode. -/
def extractKey (req : Request) (mode : ProxyMode) : Option (List Char × List Char) :=
  match mode with
  | ProxyMode.Domain => extractKeyDomain req
  | ProxyMode.Path => extractKeyPath req

/-- Model of `get_destination` in `src/server/proxy.rs`: extract the key and
forward path, then look the key up in the route table. -/
def get_destination (req : Request) (mode : ProxyMode)
    (mapping : List (List Char × List Char)) : Option HostAndPath :=
  match extractKey req mode with
  | none => none
  | some (key, path) =>
    match lookupTable mapping key with
    | none => none
    | some host => some { host := host, path := path }

/-- Response body: a fixed proxy-synthesized text, or the relayed upstream
body stream (an opaque token, passed through by `body.boxed()`). -/
inductive RespBody where
  | fixed (s : List Char)
  | upstream (b : Nat)
deriving DecidableEq

/-- Model of a response as seen by the original caller. -/
structure Response where
  status : Nat
  headers : List (List Char × List Char)
  body : RespBody
deriving DecidableEq

/-- Model of an upstream response (`Response<Incoming>` from the client). -/
structure UpstreamResponse where
  status : Nat
  headers : List (List Char × List Char)
  body : Nat
deriving DecidableEq

/-- Model of `http::response::Builder` state: a stored error flag and the
status set so far (defaults: no error, status 200). -/
structure RespBuilderState where
  hasErr : Bool
  status : Nat
deriving DecidableEq

/-- Model of `Response::builder()`. -/
def respBuilderNew : RespBuilderState := { hasErr := false, status := 200 }

/-- Model of `Builder::status`: an invalid status code (outside 100..999)
stores an error in the builder; a valid one is recorded.  The source passes
`StatusCode` constants, which are always valid. -/
def respBuilderStatus (b : RespBuilderState) (code : Nat) : RespBuilderState :=
  if 100 ≤ code ∧ code ≤ 999 then { b with status := code } else { b with hasErr := true }

/-- Model of `Builder::body`: errors exactly when the builder holds a stored
error, else produces the response (headers empty: none are set). -/
def respBuilderBody (b : RespBuilderState) (body : RespBody) : Option Response :=
  if b.hasErr then none else some { status := b.status, headers := [], body := body }

/-- Body text of the synthesized 404 response. -/
def notFoundBody : List Char := ("Local Http Proxy: Route Not Found").toList

/-- Body text of the synthesized 502 response. -/
def badGatewayBody : List Char := ("Local Http Proxy: Bad Gateway").toList

/-- Body text of the synthesized 500 response. -/
def internalErrorBody : List Char := ("Local Http Proxy: Internal Error").toList

/-- Placeholder the Rust `unwrap` would panic with; never used (see the
builder theorems). -/
def panicResponse : Response := { status := 0, headers := [], body := RespBody.fixed [] }

/-- Model of `not_found()` in `src/server/proxy.rs` (builder + unwrap). -/
def not_found : Response :=
  (respBuilderBody (respBuilderStatus respBuilderNew 404) (RespBody.fixed notFoundBody)).getD
    panicResponse

/-- Model of `bad_gateway()` in `src/server/proxy.rs`. -/
def bad_gateway : Response :=
  (respBuilderBody (respBuilderStatus respBuilderNew 502) (RespBody.fixed badGatewayBody)).getD
    panicResponse

/-- Model of `internal_error()` in `src/server/proxy.rs`. -/
def internal_error : Response :=
  (respBuilderBody (respBuilderStatus respBuilderNew 500) (RespBody.fixed internalErrorBody)).getD
    panicResponse

/-- Model of the outbound `Request<Incoming>` built for the upstream call. -/
structure OutReq where
  method : List Char
  version : Nat
  uri : Uri
  headers : List (List Char × List Char)
  body : Nat
deriving DecidableEq

/-- Model of `HeaderMap::insert`: all values previously stored under the
name are removed and the new value is associated with it. -/
def headerInsert (hs : List (List Char × List Char)) (k v : List Char) :
    List (List Char × List Char) :=
  hs.filter (fun p => decide (p.1 ≠ k)) ++ [(k, v)]

/-- The header-copying loop of `build_upstream_request`: iterate the inbound
pairs, skip the `Host` header, `insert` every other pair. -/
def copyHeaders (hs : List (List Char × List Char)) : List (List Char × List Char) :=
  hs.foldl (fun acc kv => if kv.1 = hostHdrName then acc else headerInsert acc kv.1 kv.2) []

/-- Model of `build_upstream_request` in `src/server/proxy.rs`: a builder
seeded with the original method, version and the new URI (all typed values,
so the builder holds no error and `headers_mut` is `Some`), the inbound
headers copied minus `Host`, and the body passed through. -/
def build_upstream_request (parts : ReqParts) (uri : Uri) (body : Nat) : Option OutReq :=
  some { method := parts.method, version := parts.version, uri := uri,
         headers := copyHeaders parts.headers, body := body }

/-- Model of `build_upstream_uri`: concatenate the upstream base and the
forward path, then parse (`format!` + `parse().ok()`). -/
def build_upstream_uri (host path : List Char) : Option Uri := parseUri (host ++ path)

/-- Model of relaying the upstream response
(`Response::from_parts(parts, body.boxed())`). -/
def relayResponse (r : UpstreamResponse) : Response :=
  { status := r.status, headers := r.headers, body := RespBody.upstream r.body }

/-- Model of `proxy_service` in `src/server/proxy.rs`.  The immutable
process-wide mode and table are explicit parameters, and the pooled HTTP
client is the `dispatch` oracle: `none` models a transport-level error of
`CLIENT.request`, `some r` a delivered upstream response. -/
def proxy_service (dispatch : OutReq → Option UpstreamResponse) (mode : ProxyMode)
    (table : List (List Char × List Char)) (req : Request) : Response :=
  match get_destination req mode table with
  | none => not_found
  | some destination =>
    match build_upstream_uri destination.host destination.path with
    | none => bad_gateway
    | some uri =>
      match build_upstream_request req.parts uri req.body with
      | none => internal_error
      | some upstreamReq =>
        match dispatch upstreamReq with
        | none => bad_gateway
        | some r => relayResponse r

/-- The suffix `.localhost` used in the round-trip property. -/
def dotLocalhostStr : List Char := (".localhost").toList

/-- Modelled from the words of the spec for claim C4 only: a string of the exact
shape `http://<host>[:port]` — the `http://` prefix followed by a non-empty
authority containing no `/`, `?` or `#`.  Compared against what
`normalize_target` actually returns. -/
def specTargetBaseForm (s : List Char) : Bool :=
  hasPrefixL httpPreStr s && decide (s.drop 7 ≠ []) && (s.drop 7).all isAuthFree

/-- A sample path-mode request for `/svc`, used in witnesses. -/
def reqSlashSvc : Request :=
  { parts := { method := [], version := 0, headers := [] },
    pathAndQuery := some (("/svc").toList), body := 0 }

/-- The value of the last occurrence of header name `k` in an iteration
order `hs` (the value `HeaderMap::insert` leaves in place after the copy
loop), or `none` when `k` never occurs. -/
def lastVal (hs : List (List Char × List Char)) (k : List Char) : Option (List Char) :=
  match hs with
  | [] => none
  | kv :: t =>
    match lastVal t k with
    | some v => some v
    | none => if kv.1 = k then some kv.2 else none

lemma isLabelChar_toNat {c : Char} (h : isLabelChar c = true) :
    c.toNat = 45 ∨ (48 ≤ c.toNat ∧ c.toNat ≤ 57) ∨ (97 ≤ c.toNat ∧ c.toNat ≤ 122) := by
  simp only [isLabelChar, isAlnumLower, isLowerAZ, isDigit09, Bool.or_eq_true,
    decide_eq_true_eq] at h
  rcases h with (h | h) | h
  · exact Or.inr (Or.inr h)
  · exact Or.inr (Or.inl h)
  · subst h; exact Or.inl rfl

lemma labelChar_lower {c : Char} (h : isLabelChar c = true) : lowerChar c = c := by
  have hn := isLabelChar_toNat h
  unfold lowerChar
  rw [if_neg]
  omega

lemma labelChar_not_wsp {c : Char} (h : isLabelChar c = true) : rustIsWsp c = false := by
  have hn := isLabelChar_toNat h
  simp only [rustIsWsp, rustWsCodes, decide_eq_false_iff_not, List.mem_cons,
    List.not_mem_nil, or_false]
  omega

lemma labelChar_ne_slash {c : Char} (h : isLabelChar c = true) : ¬ c = '/' := by
  intro he
  have hn := isLabelChar_toNat h
  rw [he] at hn
  revert hn
  decide

lemma labelChar_ne_dot {c : Char} (h : isLabelChar c = true) : ¬ c = '.' := by
  intro he
  have hn := isLabelChar_toNat h
  rw [he] at hn
  revert hn
  decide

lemma labelChar_ne_colon {c : Char} (h : isLabelChar c = true) : ¬ c = ':' := by
  intro he
  have hn := isLabelChar_toNat h
  rw [he] at hn
  revert hn
  decide

lemma alnumLower_labelChar {c : Char} (h : isAlnumLower c = true) : isLabelChar c = true := by
  simp [isLabelChar, h]

lemma alnumLower_ne_slash {c : Char} (h : isAlnumLower c = true) : ¬ c = '/' :=
  labelChar_ne_slash (alnumLower_labelChar h)

lemma alnumLower_alnumMixed {c : Char} (h : isAlnumLower c = true) : isAlnumMixed c = true := by
  simp only [isAlnumLower, Bool.or_eq_true] at h
  simp [isAlnumMixed]
  tauto

lemma labelChar_pathKeyChar {c : Char} (h : isLabelChar c = true) : isPathKeyChar c = true := by
  simp only [isLabelChar, Bool.or_eq_true] at h
  rcases h with h | h
  · simp [isPathKeyChar, alnumLower_alnumMixed h]
  · simp [isPathKeyChar, h]

lemma pathKeyChar_toNat {c : Char} (h : isPathKeyChar c = true) :
    c.toNat = 45 ∨ (48 ≤ c.toNat ∧ c.toNat ≤ 57) ∨ (65 ≤ c.toNat ∧ c.toNat ≤ 90) ∨
      (97 ≤ c.toNat ∧ c.toNat ≤ 122) := by
  simp only [isPathKeyChar, isAlnumMixed, isLowerAZ, isUpperAZ, isDigit09, Bool.or_eq_true,
    decide_eq_true_eq] at h
  rcases h with ((h | h) | h) | h
  · exact Or.inr (Or.inr (Or.inr h))
  · exact Or.inr (Or.inr (Or.inl h))
  · exact Or.inr (Or.inl h)
  · subst h; exact Or.inl rfl

lemma dwAllFalse {p : Char → Bool} {l : List Char} (h : ∀ c ∈ l, p c = false) :
    l.dropWhile p = l := by
  cases l with
  | nil => rfl
  | cons c t => simp [List.dropWhile_cons, h c (List.mem_cons_self c t)]

lemma twAllTrue {p : Char → Bool} {l : List Char} (h : ∀ c ∈ l, p c = true) :
    l.takeWhile p = l := by
  induction l with
  | nil => rfl
  | cons c t ih =>
    rw [List.takeWhile_cons, h c (List.mem_cons_self c t)]
    rw [ih fun d hd => h d (List.mem_cons_of_mem c hd)]
    rfl

lemma dwAllTrue {p : Char → Bool} {l : List Char} (h : ∀ c ∈ l, p c = true) :
    l.dropWhile p = [] := by
  induction l with
  | nil => rfl
  | cons c t ih =>
    rw [List.dropWhile_cons, if_pos (h c (List.mem_cons_self c t))]
    exact ih fun d hd => h d (List.mem_cons_of_mem c hd)

lemma trimEqSelf {s : List Char} (h : ∀ c ∈ s, rustIsWsp c = false) : trimS s = s := by
  unfold trimS trimL trimR
  rw [dwAllFalse h]
  rw [dwAllFalse (fun c hc => h c (List.mem_reverse.mp hc))]
  exact List.reverse_reverse s

lemma labelTailCore_all {good : Char → Bool} :
    ∀ {t : List Char}, labelTailCore good t = true →
      ∀ c ∈ t, good c = true ∨ c = '-'
  | [], _, c, hc => absurd hc (List.not_mem_nil c)
  | [d], h, c, hc => by
    rw [List.mem_singleton.mp hc]
    exact Or.inl (by simpa [labelTailCore] using h)
  | d :: d2 :: r, h, c, hc => by
    simp only [labelTailCore, Bool.and_eq_true, Bool.or_eq_true, decide_eq_true_eq] at h
    rcases List.mem_cons.mp hc with hc | hc
    · subst hc; exact h.1
    · exact labelTailCore_all h.2 c hc

lemma labelTailCore_last {good : Char → Bool} :
    ∀ {t : List Char}, labelTailCore good t = true →
      ∀ c, t.getLast? = some c → good c = true
  | [], _, c, hc => by simp at hc
  | [d], h, c, hc => by
    simp only [List.getLast?_singleton, Option.some_inj] at hc
    subst hc
    simpa [labelTailCore] using h
  | d :: d2 :: r, h, c, hc => by
    simp only [labelTailCore, Bool.and_eq_true] at h
    rw [List.getLast?_cons_cons] at hc
    exact labelTailCore_last h.2 c hc

lemma labelCore_head {good : Char → Bool} {s : List Char} (h : labelCore good s = true) :
    ∃ c t, s = c :: t ∧ good c = true ∧ labelTailCore good t = true := by
  cases s with
  | nil => simp [labelCore] at h
  | cons c t =>
    simp only [labelCore, Bool.and_eq_true] at h
    exact ⟨c, t, rfl, h.1, h.2⟩

lemma labelCore_ne_nil {good : Char → Bool} {s : List Char} (h : labelCore good s = true) :
    s ≠ [] := by
  obtain ⟨c, t, rfl, -, -⟩ := labelCore_head h
  simp

lemma labelCore_all {good : Char → Bool} {s : List Char} (h : labelCore good s = true) :
    ∀ c ∈ s, good c = true ∨ c = '-' := by
  obtain ⟨c0, t, rfl, hc0, ht⟩ := labelCore_head h
  intro c hc
  rcases List.mem_cons.mp hc with hc | hc
  · subst hc; exact Or.inl hc0
  · exact labelTailCore_all ht c hc

lemma labelCore_last {good : Char → Bool} {s : List Char} (h : labelCore good s = true) :
    ∀ c, s.getLast? = some c → good c = true := by
  obtain ⟨c0, t, rfl, hc0, ht⟩ := labelCore_head h
  intro c hc
  cases t with
  | nil =>
    simp only [List.getLast?_singleton, Option.some_inj] at hc
    subst hc; exact hc0
  | cons d r =>
    rw [List.getLast?_cons_cons] at hc
    exact labelTailCore_last ht c hc

lemma labelTailCore_mono {good good2 : Char → Bool}
    (hm : ∀ c, good c = true → good2 c = true) :
    ∀ {t : List Char}, labelTailCore good t = true → labelTailCore good2 t = true
  | [], _ => rfl
  | [d], h => by
    simp only [labelTailCore] at h ⊢
    exact hm d h
  | d :: d2 :: r, h => by
    simp only [labelTailCore, Bool.and_eq_true, Bool.or_eq_true] at h ⊢
    exact ⟨h.1.elim (fun hd => Or.inl (hm d hd)) Or.inr, labelTailCore_mono hm h.2⟩

lemma labelCore_mono {good good2 : Char → Bool} {s : List Char}
    (hm : ∀ c, good c = true → good2 c = true) (h : labelCore good s = true) :
    labelCore good2 s = true := by
  obtain ⟨c, t, rfl, hc, ht⟩ := labelCore_head h
  simp only [labelCore, Bool.and_eq_true]
  exact ⟨hm c hc, labelTailCore_mono hm ht⟩

lemma labelRe_labelChars {s : List Char} (h : labelRe s = true) :
    ∀ c ∈ s, isLabelChar c = true := by
  intro c hc
  rcases labelCore_all h c hc with hg | hg
  · exact alnumLower_labelChar hg
  · subst hg; decide

lemma hasCharFalse {s : List Char} {x : Char} (h : ∀ c ∈ s, ¬ c = x) :
    hasChar s x = false := by
  simp only [hasChar, List.any_eq_false, decide_eq_true_eq]
  exact h

lemma hasCharTrue {s : List Char} {x : Char} (h : x ∈ s) : hasChar s x = true := by
  simp only [hasChar, List.any_eq_true, decide_eq_true_eq]
  exact ⟨x, h, rfl⟩

lemma mapLowerSelf {k : List Char} (hall : ∀ c ∈ k, isLabelChar c = true) :
    k.map lowerChar = k := by
  conv_rhs => rw [← List.map_id k]
  exact List.map_congr_left fun c hc => labelChar_lower (hall c hc)

lemma normalize_eval {input k : List Char} (htrim : trimS input = input) (hne : input ≠ [])
    (hparse : parse_source_raw_key input = some k)
    (hmap : k.map lowerChar = k) (hval : validate_source_label k = true) :
    normalize_source_key input = some k := by
  simp only [normalize_source_key, htrim, hparse, hmap, hval]
  rw [if_neg hne]
  simp

lemma label_validate {k : List Char} (hre : labelRe k = true) (hlen : k.length ≤ 63) :
    validate_source_label k = true := by
  simp [validate_source_label, hre, hlen]

lemma label_parse_self {k : List Char} (hre : labelRe k = true) :
    parse_source_raw_key k = some k := by
  obtain ⟨c0, t, hk, hc0, -⟩ := labelCore_head hre
  have hall := labelRe_labelChars hre
  unfold parse_source_raw_key
  rw [if_neg (by rw [hk]; simp; exact alnumLower_ne_slash hc0)]
  rw [if_neg (by rw [hasCharFalse fun c hc => labelChar_ne_dot (hall c hc)]; simp)]

lemma label_parse_slash {k : List Char} (hre : labelRe k = true) :
    parse_source_raw_key ('/' :: k) = some k := by
  have hall := labelRe_labelChars hre
  have hne : k ≠ [] := labelCore_ne_nil hre
  unfold parse_source_raw_key
  rw [if_pos (by simp)]
  unfold firstNonemptySeg
  have hdw : List.dropWhile (fun c => decide (c = '/')) ('/' :: k) = k := by
    rw [List.dropWhile_cons, if_pos (by simp)]
    exact dwAllFalse fun c hc => by
      simpa using labelChar_ne_slash (hall c hc)
  rw [hdw, if_neg hne]
  rw [twAllTrue fun c hc => by simpa using labelChar_ne_slash (hall c hc)]

lemma label_parse_dotlocal {k : List Char} (hre : labelRe k = true) :
    parse_source_raw_key (k ++ dotLocalhostStr) = some k := by
  obtain ⟨c0, t, hk, hc0, -⟩ := labelCore_head hre
  have hall := labelRe_labelChars hre
  unfold parse_source_raw_key
  rw [if_neg (by
    rw [hk]
    simp only [List.cons_append, List.head?_cons, Option.some_inj]
    exact alnumLower_ne_slash hc0)]
  rw [if_pos (by
    rw [hasCharTrue (List.mem_append_right k (by decide))])]
  have htk : (k ++ dotLocalhostStr).takeWhile (fun c => decide (c ≠ ':')) =
      k ++ dotLocalhostStr := by
    refine twAllTrue fun c hc => ?_
    rcases List.mem_append.mp hc with hc | hc
    · simpa using labelChar_ne_colon (hall c hc)
    · exact (by decide : ∀ c ∈ dotLocalhostStr, decide (c ≠ ':') = true) c hc
  rw [htk]
  unfold firstNonemptySeg
  have hdw : (k ++ dotLocalhostStr).dropWhile (fun c => decide (c = '.')) =
      k ++ dotLocalhostStr := by
    rw [hk, List.cons_append, List.dropWhile_cons,
      if_neg (by simpa using labelChar_ne_dot (alnumLower_labelChar hc0))]
  rw [hdw, if_neg (by rw [hk]; simp)]
  rw [List.takeWhile_append_of_pos
    (fun c hc => by simpa using labelChar_ne_dot (hall c hc))]
  rw [show dotLocalhostStr.takeWhile (fun c => decide (c ≠ '.')) = [] from by decide]
  simp

lemma normalize_label_self {k : List Char} (hre : labelRe k = true) (hlen : k.length ≤ 63) :
    normalize_source_key k = some k := by
  have hall := labelRe_labelChars hre
  exact normalize_eval
    (trimEqSelf fun c hc => labelChar_not_wsp (hall c hc))
    (labelCore_ne_nil hre)
    (label_parse_self hre)
    (mapLowerSelf hall)
    (label_validate hre hlen)

/-- C5: for every RouteKey-valid string `k` (length 1-63, `[a-z0-9]` at the
edges, interior `[a-z0-9-]`), `normalize_source_key` applied to `k`, to
`/`+`k` and to `k`+`.localhost` succeeds and returns `k`. -/
theorem C5_roundtrip (k : List Char) (_hlen1 : 1 ≤ k.length) (hlen : k.length ≤ 63)
    (hre : labelRe k = true) :
    normalize_source_key k = some k ∧
    normalize_source_key ('/' :: k) = some k ∧
    normalize_source_key (k ++ dotLocalhostStr) = some k := by
  have hall := labelRe_labelChars hre
  have hmap := mapLowerSelf hall
  have hval := label_validate hre hlen
  refine ⟨normalize_label_self hre hlen, ?_, ?_⟩
  · refine normalize_eval ?_ (by simp) (label_parse_slash hre) hmap hval
    refine trimEqSelf fun c hc => ?_
    rcases List.mem_cons.mp hc with hc | hc
    · subst hc; decide
    · exact labelChar_not_wsp (hall c hc)
  · refine normalize_eval ?_ ?_ (label_parse_dotlocal hre) hmap hval
    · refine trimEqSelf fun c hc => ?_
      rcases List.mem_append.mp hc with hc | hc
      · exact labelChar_not_wsp (hall c hc)
      · exact (by decide : ∀ c ∈ dotLocalhostStr, rustIsWsp c = false) c hc
    · simp [labelCore_ne_nil hre]

/-- C5 witness: the round-trip at the concrete RouteKey `svc`. -/
theorem C5_roundtrip_witness :
    normalize_source_key (("svc").toList) = some (("svc").toList) ∧
    normalize_source_key ('/' :: ("svc").toList) = some (("svc").toList) ∧
    normalize_source_key (("svc").toList ++ dotLocalhostStr) = some (("svc").toList) :=
  C5_roundtrip (("svc").toList) (by decide) (by decide) (by decide)

/-- C6: in path mode with table `{svc -> http://upstream-svc}`, the request
path `/svc/status?x=1` resolves to `{http://upstream-svc, /status?x=1}`,
`/svc` resolves to `{http://upstream-svc, /}`, `/` resolves to `None`, and
the path with hyphen-led first segment `-bad` (then `/x`) resolves to `None`
for every table. -/
theorem C6_path_mode_examples :
    get_destination
      { parts := { method := ("GET").toList, version := 11, headers := [] },
        pathAndQuery := some (("/svc/status?x=1").toList), body := 0 }
      ProxyMode.Path [((("svc").toList), (("http://upstream-svc").toList))] =
      some { host := ("http://upstream-svc").toList, path := ("/status?x=1").toList } ∧
    get_destination
      { parts := { method := ("GET").toList, version := 11, headers := [] },
        pathAndQuery := some (("/svc").toList), body := 0 }
      ProxyMode.Path [((("svc").toList), (("http://upstream-svc").toList))] =
      some { host := ("http://upstream-svc").toList, path := slashStr } ∧
    get_destination
      { parts := { method := ("GET").toList, version := 11, headers := [] },
        pathAndQuery := some slashStr, body := 0 }
      ProxyMode.Path [((("svc").toList), (("http://upstream-svc").toList))] = none ∧
    ∀ m : List (List Char × List Char),
      get_destination
        { parts := { method := ("GET").toList, version := 11, headers := [] },
          pathAndQuery := some (("/-bad/x").toList), body := 0 }
        ProxyMode.Path m = none := by
  refine ⟨by decide, by decide, by decide, fun m => ?_⟩
  have hx : extractKey
      { parts := { method := ("GET").toList, version := 11, headers := [] },
        pathAndQuery := some (("/-bad/x").toList), body := 0 } ProxyMode.Path = none := by
    decide
  unfold get_destination
  rw [hx]

/-- C7: the concrete normalization vectors for upstream targets: bare port,
colon-port, host:port, trailing-slash stripping, and rejection of `https`
and `ftp` schemes. -/
theorem C7_target_vectors :
    normalize_target (("3000").toList) = some (("http://localhost:3000").toList) ∧
    normalize_target ((":3000").toList) = some (("http://localhost:3000").toList) ∧
    normalize_target (("127.0.0.1:8080").toList) = some (("http://127.0.0.1:8080").toList) ∧
    normalize_target (("http://svc:8080/").toList) = some (("http://svc:8080").toList) ∧
    normalize_target (("https://host").toList) = none ∧
    normalize_target (("ftp://host").toList) = none := by
  decide

/-- C10: the three synthesized error responses never hit the error branch
of the response builder: each builder chain yields `some` of the exact
response the `unwrap` returns, so producing an error response cannot
panic. -/
theorem C10_error_builders_total :
    respBuilderBody (respBuilderStatus respBuilderNew 404) (RespBody.fixed notFoundBody) =
      some not_found ∧
    respBuilderBody (respBuilderStatus respBuilderNew 502) (RespBody.fixed badGatewayBody) =
      some bad_gateway ∧
    respBuilderBody (respBuilderStatus respBuilderNew 500) (RespBody.fixed internalErrorBody) =
      some internal_error ∧
    not_found = { status := 404, headers := [], body := RespBody.fixed notFoundBody } ∧
    bad_gateway = { status := 502, headers := [], body := RespBody.fixed badGatewayBody } ∧
    internal_error = { status := 500, headers := [], body := RespBody.fixed internalErrorBody } := by
  decide

/-- C3 counterexample: a 64-character first path segment is extracted as a
routing key in path mode (the server regexes carry no length bound), yet
`normalize_source_key` rejects it, so extraction is more permissive than the
key grammar of the normalizer. -/
theorem C3_counterexample_length64 :
    extractKey
      { parts := { method := ("GET").toList, version := 11, headers := [] },
        pathAndQuery := some ('/' :: List.replicate 64 'a'), body := 0 }
      ProxyMode.Path = some (List.replicate 64 'a', slashStr) ∧
    normalize_source_key (List.replicate 64 'a') = none := by
  decide

/-- C4 counterexample: `normalize_target` accepts `http://svc:8080/foo` and
returns it with the path `/foo` intact, so a successful result need not have
the claimed `http://<host>[:port]` shape with nothing after the
authority. -/
theorem C4_counterexample_path_kept :
    normalize_target (("http://svc:8080/foo").toList) =
      some (("http://svc:8080/foo").toList) ∧
    specTargetBaseForm (("http://svc:8080/foo").toList) = false := by
  decide

/-- C8 counterexample: the input `/api` contains `/` yet
`normalize_source_key` accepts it (a leading slash selects the first path
segment), so the claim that every `/`-containing input fails is false. -/
theorem C8_counterexample_slash_input :
    ('/' ∈ ("/api").toList) ∧
    normalize_source_key (("/api").toList) = some (("api").toList) := by
  decide

lemma extractKey_path_eq (req : Request) :
    extractKey req ProxyMode.Path = extractKeyPath req := rfl

lemma extractKey_domain_eq (req : Request) :
    extractKey req ProxyMode.Domain = extractKeyDomain req := rfl

lemma pathReCaptures_cons (c : Char) (t : List Char) :
    pathReCaptures (c :: t) =
      if c = '/' then
        if pathKeyRe (t.takeWhile isPathKeyChar) && pathRestOk (t.dropWhile isPathKeyChar) then
          some (t.takeWhile isPathKeyChar, t.dropWhile isPathKeyChar)
        else none
      else none := rfl

lemma hostReCaptures_labelRe {h k : List Char} (hs : hostReCaptures h = some k) :
    labelRe k = true := by
  unfold hostReCaptures at hs
  split at hs
  · exact absurd hs (by simp)
  · split at hs
    · split at hs
      · rename_i hguard
        simp only [Bool.and_eq_true] at hguard
        cases hs
        exact hguard.1.1
      · exact absurd hs (by simp)
    · exact absurd hs (by simp)

lemma extract_key_from_host_labelRe {req : Request} {k : List Char}
    (hs : extract_key_from_host req = some k) : labelRe k = true := by
  simp only [extract_key_from_host] at hs
  split at hs
  · exact absurd hs (by simp)
  · split at hs
    · exact absurd hs (by simp)
    · split at hs
      · exact hostReCaptures_labelRe hs
      · exact absurd hs (by simp)

lemma extractKey_labelRe {req : Request} {mode : ProxyMode} {k p : List Char}
    (hs : extractKey req mode = some (k, p)) : labelRe k = true := by
  cases mode with
  | Domain =>
    have hd : extractKeyDomain req = some (k, p) := hs
    unfold extractKeyDomain at hd
    split at hd
    · exact absurd hd (by simp)
    · rename_i key hkey
      rw [Option.some_inj] at hd
      obtain ⟨rfl, -⟩ := Prod.mk.injEq .. ▸ hd
      exact extract_key_from_host_labelRe hkey
  | Path =>
    have hp : extractKeyPath req = some (k, p) := hs
    unfold extractKeyPath at hp
    split at hp
    · exact absurd hp (by simp)
    · split at hp
      · exact absurd hp (by simp)
      · split at hp
        · rename_i hre
          rw [Option.some_inj] at hp
          obtain ⟨rfl, -⟩ := Prod.mk.injEq .. ▸ hp
          exact hre
        · exact absurd hp (by simp)

lemma normalize_some_label {input k : List Char}
    (h : normalize_source_key input = some k) : labelRe k = true ∧ k.length ≤ 63 := by
  simp only [normalize_source_key] at h
  split at h
  · exact absurd h (by simp)
  · split at h
    · exact absurd h (by simp)
    · split at h
      · rename_i hval
        cases h
        simp only [validate_source_label, Bool.and_eq_true, decide_eq_true_eq] at hval
        exact ⟨hval.2, hval.1⟩
      · exact absurd h (by simp)

lemma extract_on_slash_label {k : List Char} (hre : labelRe k = true) :
    extractKey
      { parts := { method := [], version := 0, headers := [] },
        pathAndQuery := some ('/' :: k), body := 0 } ProxyMode.Path =
      some (k, slashStr) := by
  have hall := labelRe_labelChars hre
  have hpk : ∀ c ∈ k, isPathKeyChar c = true :=
    fun c hc => labelChar_pathKeyChar (hall c hc)
  have hcap : pathReCaptures ('/' :: k) = some (k, []) := by
    rw [pathReCaptures_cons, if_pos rfl, twAllTrue hpk, dwAllTrue hpk, if_pos]
    simp only [Bool.and_eq_true]
    exact ⟨labelCore_mono (fun c => alnumLower_alnumMixed) hre, rfl⟩
  rw [extractKey_path_eq]
  simp only [extractKeyPath, hcap, mapLowerSelf hall, hre, if_true]

/-- C3 (amended): every key the Key Extractor yields (either mode) matches
the label grammar, and when it is at most 63 characters long
`normalize_source_key` accepts it and returns it unchanged (the extractor
regexes carry no length bound, so longer keys are extracted yet rejected by
the normalizer — see the counterexample); conversely every string fixed by
`normalize_source_key` is extraction-reachable from some request. -/
theorem C3_extraction_vs_normalizer :
    (∀ req mode k p, extractKey req mode = some (k, p) → labelRe k = true) ∧
    (∀ req mode k p, extractKey req mode = some (k, p) → k.length ≤ 63 →
      normalize_source_key k = some k) ∧
    (∀ k, normalize_source_key k = some k →
      ∃ req, extractKey req ProxyMode.Path = some (k, slashStr)) := by
  refine ⟨fun req mode k p hs => extractKey_labelRe hs,
    fun req mode k p hs hlen => normalize_label_self (extractKey_labelRe hs) hlen,
    fun k h => ?_⟩
  exact ⟨_, extract_on_slash_label (normalize_some_label h).1⟩

/-- C3 witness: the three parts evaluated at the key `svc` and a concrete
path-mode request for `/svc`. -/
theorem C3_extraction_vs_normalizer_witness :
    labelRe (("svc").toList) = true ∧
    normalize_source_key (("svc").toList) = some (("svc").toList) ∧
    ∃ req, extractKey req ProxyMode.Path = some ((("svc").toList), slashStr) := by
  obtain ⟨h1, h2, h3⟩ := C3_extraction_vs_normalizer
  refine ⟨?_, ?_, ?_⟩
  · exact h1 reqSlashSvc ProxyMode.Path (("svc").toList) slashStr (by decide)
  · exact h2 reqSlashSvc ProxyMode.Path (("svc").toList) slashStr (by decide) (by decide)
  · exact h3 (("svc").toList) (by decide)

/-- C9: in path mode, a path-and-query of the form `/<key>?<query>` (query
free of newlines, key satisfying the path-key grammar with its lowercase
form a valid label) is accepted: the key is extracted and the forward path
is exactly `?<query>` — not rejected, not defaulted to `/`, and with no `/`
prepended. -/
theorem C9_query_only_forward (ps : ReqParts) (bd : Nat) (k q : List Char)
    (hk : pathKeyRe k = true) (hl : labelRe (k.map lowerChar) = true)
    (hq : ∀ c ∈ q, ¬ c = '\n') :
    extractKey { parts := ps, pathAndQuery := some ('/' :: (k ++ '?' :: q)), body := bd }
      ProxyMode.Path = some (k.map lowerChar, '?' :: q) := by
  have hallk : ∀ c ∈ k, isPathKeyChar c = true := by
    intro c hc
    rcases labelCore_all hk c hc with h | h
    · simp [isPathKeyChar, h]
    · subst h; decide
  have hrest : pathRestOk ('?' :: q) = true := by
    have hnn : noNewline q = true := by
      simp only [noNewline, List.all_eq_true, decide_eq_true_eq]
      exact hq
    simp [pathRestOk, hnn]
  have hcap : pathReCaptures ('/' :: (k ++ '?' :: q)) = some (k, '?' :: q) := by
    rw [pathReCaptures_cons, if_pos rfl]
    rw [List.takeWhile_append_of_pos hallk, List.dropWhile_append_of_pos hallk]
    rw [show List.takeWhile isPathKeyChar ('?' :: q) = [] from by
      rw [List.takeWhile_cons, show isPathKeyChar '?' = false from by decide]
      simp]
    rw [show List.dropWhile isPathKeyChar ('?' :: q) = '?' :: q from by
      rw [List.dropWhile_cons, show isPathKeyChar '?' = false from by decide]
      simp]
    rw [List.append_nil, if_pos]
    simp only [Bool.and_eq_true]
    exact ⟨hk, hrest⟩
  rw [extractKey_path_eq]
  simp only [extractKeyPath, hcap, hl, if_true]
  simp

/-- C9 witness: the request path `/svc?x=1` yields key `svc` and forward
path `?x=1`. -/
theorem C9_query_only_forward_witness :
    extractKey
      { parts := { method := ("GET").toList, version := 11, headers := [] },
        pathAndQuery := some ('/' :: ((("svc").toList) ++ '?' :: (("x=1").toList))),
        body := 0 } ProxyMode.Path =
      some (((("svc").toList)).map lowerChar, '?' :: (("x=1").toList)) :=
  C9_query_only_forward { method := ("GET").toList, version := 11, headers := [] } 0
    (("svc").toList) (("x=1").toList) (by decide) (by decide) (by decide)

lemma normalize_none_of_trim_empty {s : List Char} (h : trimS s = []) :
    normalize_source_key s = none := by
  simp [normalize_source_key, h]

lemma labelRe_map_lower_false {raw : List Char}
    (hbad : '/' ∈ raw ∨ (raw.map lowerChar).head? = some '-' ∨
      (raw.map lowerChar).getLast? = some '-') :
    labelRe (raw.map lowerChar) = false := by
  cases hl : labelRe (raw.map lowerChar) with
  | false => rfl
  | true =>
    exfalso
    rcases hbad with hb | hb | hb
    · have hmem : lowerChar '/' ∈ raw.map lowerChar := List.mem_map_of_mem lowerChar hb
      rw [show lowerChar '/' = '/' from by decide] at hmem
      rcases labelCore_all hl '/' hmem with hg | hg
      · exact absurd hg (by decide)
      · exact absurd hg (by decide)
    · obtain ⟨c, t, heq, hc, -⟩ := labelCore_head hl
      rw [heq] at hb
      simp only [List.head?_cons, Option.some_inj] at hb
      subst hb
      exact absurd hc (by decide)
    · exact absurd (labelCore_last hl '-' hb) (by decide)

/-- C8 (amended): `normalize_source_key` fails for every input whose trimmed
form is empty, and for every input whose extracted raw key contains `/` or
whose lowercased form starts or ends with a hyphen.  (The original claim
that every `/`-containing input fails is refuted by `/api`, whose leading
slash selects the first path segment.) -/
theorem C8_rejections :
    (∀ s, trimS s = [] → normalize_source_key s = none) ∧
    (∀ s raw, parse_source_raw_key (trimS s) = some raw →
      ('/' ∈ raw ∨ (raw.map lowerChar).head? = some '-' ∨
        (raw.map lowerChar).getLast? = some '-') →
      normalize_source_key s = none) := by
  refine ⟨fun s h => normalize_none_of_trim_empty h, fun s raw hp hbad => ?_⟩
  by_cases he : trimS s = []
  · exact normalize_none_of_trim_empty he
  · simp only [normalize_source_key, hp]
    rw [if_neg he]
    rw [if_neg]
    intro hval
    simp only [validate_source_label, Bool.and_eq_true] at hval
    rw [labelRe_map_lower_false hbad] at hval
    exact absurd hval.2 (by simp)

/-- C8 witness: the empty input and the input `a-` (whose extracted label
ends in a hyphen) both fail. -/
theorem C8_rejections_witness :
    normalize_source_key [] = none ∧
    normalize_source_key (("a-").toList) = none := by
  obtain ⟨h1, h2⟩ := C8_rejections
  exact ⟨h1 [] (by decide),
    h2 (("a-").toList) (("a-").toList) (by decide) (by decide)⟩

lemma parseAbsUri_inv {s : List Char} {u : Uri} (h : parseAbsUri s = some u) :
    ∃ sch a, u = { scheme := some sch, authority := some a, pq := u.pq } ∧ a ≠ [] ∧
      (∀ c ∈ a, isAuthFree c = true) ∧
      (u.pq = [] ∨ u.pq.head? = some '/' ∨ u.pq.head? = some '?') := by
  simp only [parseAbsUri] at h
  split at h
  · split at h
    · rename_i hguard2
      simp only [Bool.and_eq_true, decide_eq_true_eq] at hguard2
      cases h
      refine ⟨_, _, rfl, hguard2.1.1, fun c hc => List.mem_takeWhile_imp hc, ?_⟩
      set rest := (s.drop (s.takeWhile (fun c => decide (c ≠ ':'))).length).drop 3 with hrest
      show List.takeWhile (fun c => decide (c ≠ '#')) (rest.dropWhile isAuthFree) = [] ∨ _ ∨ _
      cases htail : rest.dropWhile isAuthFree with
      | nil => exact Or.inl rfl
      | cons x t2 =>
        have hx : isAuthFree x = false := by
          have hh := List.head?_dropWhile_not isAuthFree rest
          rw [htail] at hh
          simpa using hh
        simp only [isAuthFree, decide_eq_false_iff_not, not_not] at hx
        rcases hx with hx | hx | hx
        · subst hx
          right; left
          rw [List.takeWhile_cons]
          simp
        · subst hx
          right; right
          rw [List.takeWhile_cons]
          simp
        · subst hx
          left
          rw [List.takeWhile_cons]
          simp
    · exact absurd h (by simp)
  · exact absurd h (by simp)

lemma parseUri_scheme_some {s : List Char} {u : Uri} {sch : List Char}
    (h : parseUri s = some u) (hs : u.scheme = some sch) : parseAbsUri s = some u := by
  unfold parseUri at h
  split at h
  · exact h
  · split at h
    · split at h
      · cases h; simp at hs
      · exact absurd h (by simp)
    · split at h
      · cases h; simp at hs
      · exact absurd h (by simp)

lemma hasPrefixL_self_append : ∀ (p r : List Char), hasPrefixL p (p ++ r) = true
  | [], _ => rfl
  | c :: p, r => by
    show (decide (c = c) && hasPrefixL p (p ++ r)) = true
    rw [hasPrefixL_self_append p r]
    simp

lemma trimEnd_concat_keep {pre a pq : List Char} (ha : a ≠ [])
    (hs : ∀ c ∈ a, decide (c = '/') = false) :
    trimEndSlashes (pre ++ a ++ pq) = (pre ++ a) ++ trimEndSlashes pq := by
  unfold trimEndSlashes
  rw [show pre ++ a ++ pq = (pre ++ a) ++ pq from rfl, List.reverse_append,
    List.reverse_append, List.dropWhile_append]
  split
  · rename_i hempty
    have hpqnil : pq.reverse.dropWhile (fun c => decide (c = '/')) = [] :=
      List.isEmpty_iff.mp hempty
    rw [hpqnil, List.reverse_nil, List.append_nil]
    cases har : a.reverse with
    | nil => exact absurd (by simpa using congrArg List.reverse har) ha
    | cons c t =>
      have hc : decide (c = '/') = false := by
        refine hs c ?_
        rw [← List.mem_reverse, har]
        exact List.mem_cons_self c t
      have haa : a = t.reverse ++ [c] := by
        rw [← List.reverse_reverse a, har]
        simp
      rw [List.cons_append, List.dropWhile_cons, hc]
      simp [haa]
  · rw [List.reverse_append, List.reverse_append, List.reverse_reverse]
    simp

lemma trimEnd_getLast_ne {l : List Char} {x : Char}
    (h : (trimEndSlashes l).getLast? = some x) : ¬ x = '/' := by
  unfold trimEndSlashes at h
  have hrew : (l.reverse.dropWhile (fun c => decide (c = '/'))).head? = some x := by
    have h2 := List.head?_reverse (l.reverse.dropWhile (fun c => decide (c = '/'))).reverse
    rw [List.reverse_reverse] at h2
    rw [← h2] at h
    exact h
  have := List.head?_dropWhile_not (fun c => decide (c = '/')) l.reverse
  rw [hrew] at this
  simpa using this

/-- C4 (amended): every string `normalize_target` returns starts with
`http://`, has a non-empty authority immediately after that prefix, and does
not end in `/`; the stronger reading of the claim — nothing at all after the
authority — fails, because an `http://` input may carry a path or query that
is preserved (see the counterexample). -/
theorem C4_target_shape (input out : List Char) (h : normalize_target input = some out) :
    hasPrefixL httpPreStr out = true ∧
    (out.drop 7).takeWhile isAuthFree ≠ [] ∧
    out.getLast? ≠ some '/' := by
  simp only [normalize_target] at h
  split at h
  · exact absurd h (by simp)
  · split at h
    · exact absurd h (by simp)
    · rename_i ws hws
      split at h
      · exact absurd h (by simp)
      · rename_i u hu
        split at h
        · rename_i hsch
          split at h
          · exact absurd h (by simp)
          · rename_i a2 ha2
            cases h
            obtain ⟨sch, a, hrec, hane, hafree, hpq⟩ :=
              parseAbsUri_inv (parseUri_scheme_some hu hsch)
            have hschv : sch = httpStr := by
              rw [hrec] at hsch
              simpa using hsch
            have hts : uriToString u = httpPreStr ++ a ++ u.pq := by
              rw [hrec]
              simp only [uriToString, Option.getD_some, hschv]
              rfl
            have hslash : ∀ c ∈ a, decide (c = '/') = false := by
              intro c hc
              have := hafree c hc
              simp only [isAuthFree, decide_eq_true_eq] at this
              simp only [decide_eq_false_iff_not]
              exact fun hx => this (Or.inl hx)
            have hout : trimEndSlashes (uriToString u) =
                (httpPreStr ++ a) ++ trimEndSlashes u.pq := by
              rw [hts]
              exact trimEnd_concat_keep hane hslash
            refine ⟨?_, ?_, ?_⟩
            · rw [hout, List.append_assoc]
              exact hasPrefixL_self_append httpPreStr (a ++ trimEndSlashes u.pq)
            · rw [hout, List.append_assoc,
                show (7 : Nat) = httpPreStr.length from rfl,
                List.drop_left httpPreStr (a ++ trimEndSlashes u.pq)]
              rw [List.takeWhile_append_of_pos hafree]
              intro hnil
              exact hane (List.append_eq_nil.mp hnil).1
            · rw [hout]
              cases hte : trimEndSlashes u.pq with
              | nil =>
                rw [List.append_nil]
                intro hcon
                rw [List.getLast?_append_of_ne_nil httpPreStr hane] at hcon
                have hm := List.mem_of_mem_getLast? hcon
                have := hslash '/' hm
                simp at this
              | cons z t2 =>
                intro hcon
                rw [List.getLast?_append_of_ne_nil (httpPreStr ++ a)
                  (List.cons_ne_nil z t2)] at hcon
                rw [← hte] at hcon
                exact trimEnd_getLast_ne hcon rfl
        · exact absurd h (by simp)

/-- C4 witness: the shape facts at the concrete output for input `3000`. -/
theorem C4_target_shape_witness :
    hasPrefixL httpPreStr (("http://localhost:3000").toList) = true ∧
    ((("http://localhost:3000").toList).drop 7).takeWhile isAuthFree ≠ [] ∧
    (("http://localhost:3000").toList).getLast? ≠ some '/' :=
  C4_target_shape (("3000").toList) (("http://localhost:3000").toList) (by decide)

lemma filter_filter_sub {acc : List (List Char × List Char)} {k j : List Char}
    (hne : ¬ j = k) :
    (acc.filter (fun p => decide (p.1 ≠ j))).filter (fun p => decide (p.1 = k)) =
      acc.filter (fun p => decide (p.1 = k)) := by
  rw [List.filter_filter]
  refine List.filter_congr ?_
  intro x _
  by_cases hx : x.1 = k
  · have hxj : ¬ x.1 = j := fun hh => hne (by rw [← hh, hx])
    have hkj : ¬ k = j := fun hh => hne hh.symm
    simp [hx, hxj, hkj]
  · simp [hx]

lemma filter_filter_same {acc : List (List Char × List Char)} {k : List Char} :
    (acc.filter (fun p => decide (p.1 ≠ k))).filter (fun p => decide (p.1 = k)) = [] := by
  rw [List.filter_filter]
  rw [List.filter_eq_nil_iff.mpr]
  intro x _
  by_cases hx : x.1 = k
  · simp [hx]
  · simp [hx]

lemma copyHeaders_host : ∀ (t acc : List (List Char × List Char)),
    (List.foldl (fun acc kv => if kv.1 = hostHdrName then acc else headerInsert acc kv.1 kv.2)
      acc t).filter (fun p => decide (p.1 = hostHdrName)) =
      acc.filter (fun p => decide (p.1 = hostHdrName))
  | [], acc => rfl
  | kv :: t, acc => by
    rw [List.foldl_cons, copyHeaders_host t _]
    by_cases hkv : kv.1 = hostHdrName
    · rw [if_pos hkv]
    · rw [if_neg hkv]
      unfold headerInsert
      rw [List.filter_append]
      rw [show List.filter (fun p => decide (p.1 = hostHdrName)) [(kv.1, kv.2)] = []
        from by simp [hkv]]
      rw [List.append_nil]
      exact filter_filter_sub hkv

lemma copyHeaders_key : ∀ (t acc : List (List Char × List Char)) (k : List Char),
    ¬ k = hostHdrName →
    (List.foldl (fun acc kv => if kv.1 = hostHdrName then acc else headerInsert acc kv.1 kv.2)
      acc t).filter (fun p => decide (p.1 = k)) =
      (match lastVal t k with
       | some v => [(k, v)]
       | none => acc.filter (fun p => decide (p.1 = k)))
  | [], acc, k, hk => rfl
  | kv :: t, acc, k, hk => by
    rw [List.foldl_cons, copyHeaders_key t _ k hk]
    show _ = (match lastVal (kv :: t) k with
      | some v => [(k, v)]
      | none => acc.filter (fun p => decide (p.1 = k)))
    rw [show lastVal (kv :: t) k = (match lastVal t k with
      | some v => some v
      | none => if kv.1 = k then some kv.2 else none) from rfl]
    cases hl : lastVal t k with
    | some v => rfl
    | none =>
      by_cases hkv : kv.1 = k
      · rw [if_pos hkv]
        have hkvh : ¬ kv.1 = hostHdrName := by rw [hkv]; exact hk
        rw [if_neg hkvh]
        unfold headerInsert
        rw [List.filter_append, hkv, filter_filter_same]
        simp
      · rw [if_neg hkv]
        by_cases hkvh : kv.1 = hostHdrName
        · rw [if_pos hkvh]
        · rw [if_neg hkvh]
          unfold headerInsert
          rw [List.filter_append]
          rw [show List.filter (fun p => decide (p.1 = k)) [(kv.1, kv.2)] = []
            from by simp [hkv]]
          rw [List.append_nil]
          exact filter_filter_sub hkv

/-- C2 (amended): the outbound request always builds, preserving method,
version, URI and body; the `Host` header never survives; and for every other
header name the outbound request carries exactly one pair — the name with
the value of its last inbound occurrence.  (The original claim that every
occurrence of a repeated header survives is false: `HeaderMap::insert`
replaces, so earlier occurrences are dropped — see the counterexample.) -/
theorem C2_upstream_request (parts : ReqParts) (uri : Uri) (body : Nat) :
    ∃ out, build_upstream_request parts uri body = some out ∧
      out.method = parts.method ∧ out.version = parts.version ∧ out.uri = uri ∧
      out.body = body ∧
      out.headers.filter (fun p => decide (p.1 = hostHdrName)) = [] ∧
      (∀ k, ¬ k = hostHdrName →
        out.headers.filter (fun p => decide (p.1 = k)) =
          (match lastVal parts.headers k with
           | some v => [(k, v)]
           | none => [])) := by
  refine ⟨_, rfl, rfl, rfl, rfl, rfl, ?_, ?_⟩
  · show (copyHeaders parts.headers).filter _ = []
    unfold copyHeaders
    rw [copyHeaders_host parts.headers []]
    rfl
  · intro k hk
    show (copyHeaders parts.headers).filter _ = _
    unfold copyHeaders
    rw [copyHeaders_key parts.headers [] k hk]
    cases lastVal parts.headers k <;> rfl

/-- C2 witness: the amended characterization applied at a concrete request
with a repeated `x-a` header and a `host` header. -/
theorem C2_upstream_request_witness :
    ∃ out, build_upstream_request
      { method := ("GET").toList, version := 11,
        headers := [((("x-a").toList), (("1").toList)), ((("x-a").toList), (("2").toList)),
          (hostHdrName, (("example").toList))] }
      { scheme := some httpStr, authority := some (("u").toList), pq := [] } 0 = some out ∧
      out.method = ("GET").toList ∧ out.version = 11 ∧
      out.uri = { scheme := some httpStr, authority := some (("u").toList), pq := [] } ∧
      out.body = 0 ∧
      out.headers.filter (fun p => decide (p.1 = hostHdrName)) = [] ∧
      (∀ k, ¬ k = hostHdrName →
        out.headers.filter (fun p => decide (p.1 = k)) =
          (match lastVal [((("x-a").toList), (("1").toList)),
              ((("x-a").toList), (("2").toList)),
              (hostHdrName, (("example").toList))] k with
           | some v => [(k, v)]
           | none => [])) :=
  C2_upstream_request
    { method := ("GET").toList, version := 11,
      headers := [((("x-a").toList), (("1").toList)), ((("x-a").toList), (("2").toList)),
        (hostHdrName, (("example").toList))] }
    { scheme := some httpStr, authority := some (("u").toList), pq := [] } 0

/-- C2 counterexample: with inbound headers `x-a: 1`, `x-a: 2` and a `host`
header, the outbound request keeps only `x-a: 2` — not both occurrences of
`x-a` — so the outbound header list differs from "all inbound headers except
Host". -/
theorem C2_counterexample_repeated_header :
    (build_upstream_request
      { method := ("GET").toList, version := 11,
        headers := [((("x-a").toList), (("1").toList)), ((("x-a").toList), (("2").toList)),
          (hostHdrName, (("example").toList))] }
      { scheme := some httpStr, authority := some (("u").toList), pq := [] } 0).map
        OutReq.headers = some [((("x-a").toList), (("2").toList))] ∧
    (List.filter (fun p => decide (p.1 ≠ hostHdrName))
      [((("x-a").toList), (("1").toList)), ((("x-a").toList), (("2").toList)),
        (hostHdrName, (("example").toList))]) =
      [((("x-a").toList), (("1").toList)), ((("x-a").toList), (("2").toList))] ∧
    decide ((build_upstream_request
      { method := ("GET").toList, version := 11,
        headers := [((("x-a").toList), (("1").toList)), ((("x-a").toList), (("2").toList)),
          (hostHdrName, (("example").toList))] }
      { scheme := some httpStr, authority := some (("u").toList), pq := [] } 0).map
        OutReq.headers =
      some (List.filter (fun p => decide (p.1 ≠ hostHdrName))
        [((("x-a").toList), (("1").toList)), ((("x-a").toList), (("2").toList)),
          (hostHdrName, (("example").toList))])) = false := by
  refine ⟨by decide, by decide, by decide⟩

/-- C1: `proxy_service` returns exactly one of four outcomes, each from its
own cause: `404` with the fixed Route-Not-Found body when resolution yields
`None` (no default upstream is attempted); `502` with the fixed Bad-Gateway
body when the concatenated upstream URI fails to parse, or when dispatch
fails at the transport level; `500` with the fixed Internal-Error body when
outbound request construction fails; otherwise the upstream response is
relayed. -/
theorem C1_proxy_service_cases (dispatch : OutReq → Option UpstreamResponse)
    (mode : ProxyMode) (table : List (List Char × List Char)) (req : Request) :
    (get_destination req mode table = none →
      proxy_service dispatch mode table req =
        { status := 404, headers := [], body := RespBody.fixed notFoundBody }) ∧
    (∀ d, get_destination req mode table = some d →
      build_upstream_uri d.host d.path = none →
      proxy_service dispatch mode table req =
        { status := 502, headers := [], body := RespBody.fixed badGatewayBody }) ∧
    (∀ d u, get_destination req mode table = some d →
      build_upstream_uri d.host d.path = some u →
      build_upstream_request req.parts u req.body = none →
      proxy_service dispatch mode table req =
        { status := 500, headers := [], body := RespBody.fixed internalErrorBody }) ∧
    (∀ d u ur, get_destination req mode table = some d →
      build_upstream_uri d.host d.path = some u →
      build_upstream_request req.parts u req.body = some ur →
      dispatch ur = none →
      proxy_service dispatch mode table req =
        { status := 502, headers := [], body := RespBody.fixed badGatewayBody }) ∧
    (∀ d u ur r, get_destination req mode table = some d →
      build_upstream_uri d.host d.path = some u →
      build_upstream_request req.parts u req.body = some ur →
      dispatch ur = some r →
      proxy_service dispatch mode table req =
        { status := r.status, headers := r.headers, body := RespBody.upstream r.body }) := by
  refine ⟨?_, ?_, ?_, ?_, ?_⟩
  · intro h
    simp only [proxy_service, h]
    decide
  · intro d h1 h2
    simp only [proxy_service, h1, h2]
    decide
  · intro d u h1 h2 h3
    simp only [proxy_service, h1, h2, h3]
    decide
  · intro d u ur h1 h2 h3 h4
    simp only [proxy_service, h1, h2, h3, h4]
    decide
  · intro d u ur r h1 h2 h3 h4
    simp only [proxy_service, h1, h2, h3, h4]
    rfl

/-- C1 witness: with an empty route table, a path-mode request for `/svc`
resolves to `None` and the handler answers the fixed 404 response. -/
theorem C1_proxy_service_cases_witness :
    proxy_service (fun _ => none) ProxyMode.Path [] reqSlashSvc =
      { status := 404, headers := [], body := RespBody.fixed notFoundBody } :=
  (C1_proxy_service_cases (fun _ => none) ProxyMode.Path [] reqSlashSvc).1 (by decide)
example : normalize_source_key (("API.localhost").toList) = some (("api").toList) := by decide
example : normalize_source_key (("api.localhost:8080").toList) = some (("api").toList) := by decide
example : normalize_source_key (("my-app").toList) = some (("my-app").toList) := by decide
example : normalize_source_key (("has.dot").toList) = some (("has").toList) := by decide
example : normalize_source_key (("-bad").toList) = none := by decide
example : normalize_source_key (("bad-").toList) = none := by decide
example : normalize_source_key (("has/slash").toList) = none := by decide
example : normalize_source_key (List.replicate 64 'a') = none := by decide
example : normalize_source_key (List.replicate 63 'a') = some (List.replicate 63 'a') := by decide
